import Mathlib

/-!
Verification of the alpha-asymmetry analysis scripts.

This file gives a shallow embedding, over `ℚ` (and `ℝ` only where the source
takes square roots), of the parts of the repository the claims are about:

* `run_asymmetry_strategy` in `src/analysis/recompute_tables.py`
  (the weekly backtest engine: signal gating, one-period execution lag,
  forced four-period exit, conflict policy, position sizing, and the
  Sharpe / Sortino / drawdown / trade-count statistics), and
* `compute_ai` in `src/analysis/recompute_tables.py` (the Asymmetry Index),
* the EVT declustering / GPD-gate code in
  `src/analysis/phase0_data_verification.py`.

Pandas NaN values are modelled with `Option`; every comparison with NaN in
Python is `False`, which the embedding reproduces at each use site.
-/

/-- One weekly observation, as consumed by `run_asymmetry_strategy`: the
weekly return plus the signal columns the strategy loop reads
(`fast_skew_20w`, `fast_alpha`, `price_skew_20w`, `pricing_alpha`,
`pricing_std_20w`, `ai_20w`). -/
structure Bar where
  weeklyReturn : ℚ
  fastSkew : ℚ
  fastAlpha : ℚ
  priceSkew : ℚ
  pricingAlpha : ℚ
  pricingStd : ℚ
  ai : ℚ
deriving DecidableEq

/-- Long-entry signal, from `recompute_tables.py` line 177:
`(df['fast_skew_20w'] > threshold) & (df['fast_alpha'] > 0)`. -/
def long_signal (threshold : ℚ) (b : Bar) : Bool :=
  decide (threshold < b.fastSkew) && decide (0 < b.fastAlpha)

/-- Short-entry signal, from `recompute_tables.py` line 178:
`(df['price_skew_20w'] > threshold) & (df['pricing_alpha'] > 0.5 * df['pricing_std_20w'])`. -/
def short_signal (threshold : ℚ) (b : Bar) : Bool :=
  decide (threshold < b.priceSkew) && decide (1/2 * b.pricingStd < b.pricingAlpha)

/-- Position size, from `recompute_tables.py` line 208:
`ps = max(0.5, min(2.0, 1.0 + abs(ai_val - 1.0)))`. -/
def clampSize (a : ℚ) : ℚ :=
  max (1/2) (min 2 (1 + |a - 1|))

/-- The `np.sign` of a rational, as used in the holding-counter update. -/
def sgn (q : ℚ) : ℤ :=
  if 0 < q then 1 else if q < 0 then -1 else 0

/-- One iteration of the position loop of `run_asymmetry_strategy`
(`recompute_tables.py` lines 186-240).  The state is the pair
(previous position, previous holding counter); `sigGate` is the source's
`i >= 2` guard that forces the lagged signals to `False` on the first
loop iteration; `b` is the bar at index `i - 1` (the lagged bar), whose
signal and `ai_20w` values the iteration reads. -/
def stratStep (threshold : ℚ) (sigGate : Bool) (b : Bar) (s : ℚ × ℕ) : ℚ × ℕ :=
  let prevPos := s.1
  let prevHold := s.2
  if 4 ≤ prevHold then
    (0, 0)
  else
    let sigLong := sigGate && long_signal threshold b
    let sigShort := sigGate && short_signal threshold b
    let ps := clampSize b.ai
    let newPos :=
      if sigLong = true ∧ sigShort = false then ps
      else if sigShort = true ∧ sigLong = false then -ps
      else if sigLong = true ∧ sigShort = true then 0
      else if 0 < prevPos ∧ long_signal threshold b = false then 0
      else if prevPos < 0 ∧ short_signal threshold b = false then 0
      else prevPos
    let newHold :=
      if newPos ≠ 0 ∧ sgn newPos = sgn prevPos then prevHold + 1
      else if newPos ≠ 0 then 1
      else 0
    (newPos, newHold)

/-- The (position, holding counter) state of `run_asymmetry_strategy` at each
index.  Index 0 is the initialisation `position = 0.0`, `hold_counter = 0`
(`recompute_tables.py` lines 181-183); index `i + 1` runs the loop body,
reading the bar at index `i` (the one-period lag: `long_signal.iloc[i-1]`,
`short_signal.iloc[i-1]`, `df['ai_20w'].iloc[i-1]`), with the signals gated
off when `i + 1 < 2`. -/
def stratState (threshold : ℚ) (bars : ℕ → Bar) : ℕ → ℚ × ℕ
  | 0 => (0, 0)
  | i + 1 => stratStep threshold (decide (1 ≤ i)) (bars i) (stratState threshold bars i)

/-- The position series of the backtest run. -/
def stratPos (threshold : ℚ) (bars : ℕ → Bar) (t : ℕ) : ℚ :=
  (stratState threshold bars t).1

/-- The holding-counter series of the backtest run. -/
def hold_counter (threshold : ℚ) (bars : ℕ → Bar) (t : ℕ) : ℕ :=
  (stratState threshold bars t).2

/-- Realized strategy return, from `recompute_tables.py` lines 243-244:
`strategy_returns = position.shift(1) * df['weekly_return']` followed by
`fillna(0)` (the shifted position at index 0 is NaN, so the first entry is 0). -/
def stratReturn (threshold : ℚ) (bars : ℕ → Bar) : ℕ → ℚ
  | 0 => 0
  | t + 1 => stratPos threshold bars t * (bars (t + 1)).weeklyReturn

/-- The position series of a run of length `n`, as a list. -/
def posList (threshold : ℚ) (bars : ℕ → Bar) (n : ℕ) : List ℚ :=
  (List.range n).map (stratPos threshold bars)

/-- The strategy-return series of a run of length `n`, as a list. -/
def stratReturnsList (threshold : ℚ) (bars : ℕ → Bar) (n : ℕ) : List ℚ :=
  (List.range n).map (stratReturn threshold bars)

/-! ### Summary statistics of `run_asymmetry_strategy` (lines 246-266) -/

/-- Arithmetic mean of a list, modelling `pandas.Series.mean` on a series
without NaN entries (the strategy returns are `fillna(0)`).  For the empty
list `ℚ` division by zero makes this 0; the source never takes the mean of
an empty series. -/
def listMean (l : List ℚ) : ℚ :=
  l.sum / l.length

/-- Sample variance with `ddof = 1`, modelling `pandas.Series.std` squared.
For fewer than two points pandas returns NaN, modelled as `none`. -/
def svar (l : List ℚ) : Option ℚ :=
  if 2 ≤ l.length then
    some ((l.map (fun x => (x - listMean l) ^ 2)).sum / ((l.length : ℚ) - 1))
  else
    none

/-- Annualized Sharpe ratio, from `recompute_tables.py` lines 251-253:
`sharpe = (weekly_mean / weekly_std) * np.sqrt(52) if weekly_std > 0 else 0.0`.
A NaN `weekly_std` (fewer than two returns, `svar = none`) makes the Python
test `weekly_std > 0` false, so that case also yields `0.0`. -/
noncomputable def sharpe (rs : List ℚ) : ℝ :=
  match svar rs with
  | some v => if 0 < Real.sqrt v then ((listMean rs : ℝ) / Real.sqrt v) * Real.sqrt 52 else 0
  | none => 0

/-- Annualized Sortino ratio, from `recompute_tables.py` lines 256-258:
`downside = strategy_returns[strategy_returns < 0]`,
`downside_std = downside.std() if len(downside) > 0 else 1e-10`,
`sortino = (weekly_mean / downside_std) * np.sqrt(52) if downside_std > 0 else 0.0`.
A NaN `downside_std` (exactly one downside return) fails the `> 0` test and
yields `0.0`; the `1e-10` floor is positive, so that branch always takes the
ratio formula. -/
noncomputable def sortino (rs : List ℚ) : ℝ :=
  let downside := rs.filter (fun r => r < 0)
  if 0 < downside.length then
    match svar downside with
    | some v => if 0 < Real.sqrt v then ((listMean rs : ℝ) / Real.sqrt v) * Real.sqrt 52 else 0
    | none => 0
  else
    if (0 : ℝ) < 1 / 10 ^ 10 then ((listMean rs : ℝ) / (1 / 10 ^ 10)) * Real.sqrt 52 else 0

/-- Running scan used to model `cumprod` and `cummax`: element `i` of the
result is the fold of `f` over the first `i + 1` inputs starting from `a`. -/
def cumScan (f : ℚ → ℚ → ℚ) (a : ℚ) : List ℚ → List ℚ
  | [] => []
  | x :: xs => f a x :: cumScan f (f a x) xs

/-- Cumulative compounded return series, `(1 + strategy_returns).cumprod()`
(`recompute_tables.py` line 248). -/
def cumprod1p (rs : List ℚ) : List ℚ :=
  cumScan (fun a r => a * (1 + r)) 1 rs

/-- Running maximum of a series, `Series.cummax()`. -/
def runningMax : List ℚ → List ℚ
  | [] => []
  | x :: xs => x :: cumScan (fun a r => max a r) x xs

/-- Minimum of a list, `Series.min()`; 0 for the empty series (the source
never takes the minimum of an empty drawdown series). -/
def listMin : List ℚ → ℚ
  | [] => 0
  | x :: xs => xs.foldl min x

/-- Maximum drawdown, from `recompute_tables.py` line 249:
`max_dd = ((cum_returns_series / cum_returns_series.cummax()) - 1).min()`. -/
def max_drawdown (rs : List ℚ) : ℚ :=
  listMin (List.zipWith (fun c m => c / m - 1) (cumprod1p rs) (runningMax (cumprod1p rs)))

/-- Count of indices `i ≥ 1` with `abs (p i - p (i-1)) > 0`, the value
`(pos_changes > 0).sum()` for `pos_changes = position.diff().abs()`
(`recompute_tables.py` line 265).  The `diff` at index 0 is NaN and
`NaN > 0` is false, so index 0 never counts. -/
def countAbsDiffPosAux (prev : ℚ) : List ℚ → ℕ
  | [] => 0
  | y :: ys => (if 0 < |y - prev| then 1 else 0) + countAbsDiffPosAux y ys

/-- Top-level wrapper of `countAbsDiffPosAux` starting at the first element. -/
def countAbsDiffPos : List ℚ → ℕ
  | [] => 0
  | x :: xs => countAbsDiffPosAux x xs

/-- Reported trade count, from `recompute_tables.py` line 266:
`n_trades = int((pos_changes > 0).sum() // 2)`. -/
def n_trades (p : List ℚ) : ℕ :=
  countAbsDiffPos p / 2

/-- Count of adjacent sign changes of a series, following the spec's words
for the trade-count statistic: "count of sign changes in position". -/
def countSignChangesAux (prev : ℚ) : List ℚ → ℕ
  | [] => 0
  | y :: ys => (if sgn y ≠ sgn prev then 1 else 0) + countSignChangesAux y ys

/-- Top-level wrapper of `countSignChangesAux` starting at the first element. -/
def countSignChanges : List ℚ → ℕ
  | [] => 0
  | x :: xs => countSignChangesAux x xs

/-- Trade count as the spec's words describe it: the number of sign changes
in the position series, halved. -/
def spec_n_trades (p : List ℚ) : ℕ :=
  countSignChanges p / 2

/-- Count of adjacent value changes of a series (any change of the position
value, including a size-only change of unchanged sign). -/
def countValueChangesAux (prev : ℚ) : List ℚ → ℕ
  | [] => 0
  | y :: ys => (if y ≠ prev then 1 else 0) + countValueChangesAux y ys

/-- Top-level wrapper of `countValueChangesAux` starting at the first element. -/
def countValueChanges : List ℚ → ℕ
  | [] => 0
  | x :: xs => countValueChangesAux x xs

/-! ### The Asymmetry Index (`compute_ai`, `recompute_tables.py` lines 140-149) -/

/-- The Asymmetry Index of one rolling window, translated from `compute_ai`
(`recompute_tables.py` lines 140-149).  The window may contain NaN entries
(`none`); `x.dropna()` is `filterMap id`.  The pandas variance of a
one-element series is NaN (`svar = none`): then `neg.var() == 0` is false and
`pos.var() / neg.var()` is NaN, so the result is `none`. -/
def compute_ai (w : List (Option ℚ)) : Option ℚ :=
  let x := w.filterMap id
  if x.length < 5 then some 1
  else
    let m := listMean x
    let pos := (x.filter (fun v => m < v)).map (fun v => v - m)
    let neg := (x.filter (fun v => v < m)).map (fun v => v - m)
    if neg.length = 0 ∨ svar neg = some 0 then some 1
    else if 0 < pos.length then
      match svar pos, svar neg with
      | some vp, some vn => some (vp / vn)
      | _, _ => none
    else some 1

/-- Asymmetry Index as claim C7's words state it: the ratio of the variance
of above-mean deviations to the variance of below-mean deviations of the
window's valid values, and exactly 1.0 whenever the window has fewer than 5
valid points or the below-mean variance is zero or absent ("absent" covering
every window whose below-mean variance does not exist, including a single
below-mean point, for which pandas reports NaN). -/
def spec_ai (w : List (Option ℚ)) : Option ℚ :=
  let x := w.filterMap id
  if x.length < 5 then some 1
  else
    let m := listMean x
    let pos := (x.filter (fun v => m < v)).map (fun v => v - m)
    let neg := (x.filter (fun v => v < m)).map (fun v => v - m)
    match svar neg with
    | none => some 1
    | some vn => if vn = 0 then some 1 else (svar pos).map (fun vp => vp / vn)

/-- Asymmetry Index as the amended claim states it: 1.0 when there are fewer
than 5 valid points, no below-mean points at all, or a below-mean variance
that is defined and zero; NaN (`none`) when the below-mean variance is
undefined with at least one below-mean point present, or when the above-mean
variance is undefined; otherwise the ratio of the two variances. -/
def amended_ai (w : List (Option ℚ)) : Option ℚ :=
  let x := w.filterMap id
  if x.length < 5 then some 1
  else
    let m := listMean x
    let pos := (x.filter (fun v => m < v)).map (fun v => v - m)
    let neg := (x.filter (fun v => v < m)).map (fun v => v - m)
    if neg.length = 0 then some 1
    else
      match svar neg with
      | none => none
      | some vn => if vn = 0 then some 1 else (svar pos).map (fun vp => vp / vn)

/-! ### EVT declustering (`phase0_data_verification.py` lines 190-211) and the
GPD sample-size gate (lines 262, 302-303) -/

/-- Tail of the cluster-label assignment loop (`phase0_data_verification.py`
lines 195-199): for each further exceedance index, the gap to the previous
one is compared with the run-length parameter 5 and the current cluster
label is advanced on `gap >= 5`. -/
def cluster_labels_aux (prev cur : ℕ) : List ℕ → List ℕ
  | [] => []
  | e :: rest =>
    let c2 := if (5 : ℤ) ≤ (e : ℤ) - (prev : ℤ) then cur + 1 else cur
    c2 :: cluster_labels_aux e c2 rest

/-- Cluster labels of an exceedance-index sequence
(`phase0_data_verification.py` lines 192-199): the first exceedance gets
label 0 (`cluster_labels = [0]`), and each later one either joins the
current cluster or starts a new one when the index gap is at least 5. -/
def cluster_labels : List ℕ → List ℕ
  | [] => []
  | e :: rest => 0 :: cluster_labels_aux e 0 rest

/-- Number of clusters, `n_clusters = current_cluster + 1`
(`phase0_data_verification.py` line 201); 0 when there are no exceedances
(line 251). -/
def n_clusters (e : List ℕ) : ℕ :=
  if e.isEmpty then 0 else (cluster_labels e).getLastD 0 + 1

/-- The member indices of cluster `c`: the exceedance indices whose label is
`c` (`phase0_data_verification.py` line 206). -/
def cluster_members (e : List ℕ) (c : ℕ) : List ℕ :=
  ((cluster_labels e).zip e).filterMap (fun p => if p.1 = c then some p.2 else none)

/-- Maximum of a list, `Series.max()`; 0 for the empty series (the source
only takes maxima of nonempty clusters). -/
def listMax : List ℚ → ℚ
  | [] => 0
  | x :: xs => xs.foldl max x

/-- Representative value of cluster `c`: the maximum tail-alpha value over
its member indices (`phase0_data_verification.py` line 207), with the
tail-alpha series modelled as a function from positional index to value. -/
def cluster_max (ta : ℕ → ℚ) (e : List ℕ) (c : ℕ) : ℚ :=
  listMax ((cluster_members e c).map ta)

/-- The list of cluster maxima (`phase0_data_verification.py` lines 204-208). -/
def cluster_maxima (ta : ℕ → ℚ) (e : List ℕ) : List ℚ :=
  (List.range (n_clusters e)).map (cluster_max ta e)

/-- Whether the GPD fit is performed, from `phase0_data_verification.py`
line 262: `if len(cluster_maxima) > 10:`; the `else` branch (lines 302-303)
reports insufficient data. -/
def gpd_fit_attempted (ta : ℕ → ℚ) (e : List ℕ) : Bool :=
  decide (10 < (cluster_maxima ta e).length)

/-! ### Concrete inputs used by the witnesses and counterexamples -/

/-- A bar that fires the long-entry signal (at threshold 0) and not the
short-entry signal, with Asymmetry Index 1 (entry size 1). -/
def barL1 : Bar := ⟨0, 1, 1, -1, 0, 1, 1⟩

/-- A bar that fires the long-entry signal (at threshold 0) and not the
short-entry signal, with Asymmetry Index 3/2 (entry size 3/2). -/
def barL15 : Bar := ⟨0, 1, 1, -1, 0, 1, 3/2⟩

/-- A bar that fires neither entry signal. -/
def barN : Bar := ⟨0, -1, -1, -1, 0, 1, 1⟩

/-- A bar that fires both entry signals simultaneously (at threshold 0). -/
def barB : Bar := ⟨0, 1, 1, 1, 1, 1, 1⟩

/-- The bar `barL1` with its signal columns mutated so that no signal fires;
its weekly return is unchanged. -/
def barL1mut : Bar := ⟨0, -1, -1, -1, 0, 1, 7⟩

/-- Bar sequence for the trade-count counterexample: two long trades, each
held for two periods with different Asymmetry Index values, so the position
size changes mid-trade without a sign change. -/
def barsT : ℕ → Bar := fun i =>
  if i = 1 then barL1
  else if i = 2 then barL15
  else if i = 4 then barL1
  else if i = 5 then barL15
  else barN

/-- Bar sequence that keeps the long signal on long enough for the holding
counter to reach 4 and force an exit. -/
def barsH : ℕ → Bar := fun i =>
  if i = 0 then barN else if i ≤ 5 then barL1 else barN

/-- Bar sequence firing both entry signals at every period. -/
def barsB : ℕ → Bar := fun _ => barB

/-- Bar sequence with no signals and zero weekly returns (a zero-volatility
price series). -/
def barsZ : ℕ → Bar := fun _ => barN

/-- Bar sequence with the long signal on at every period. -/
def barsA : ℕ → Bar := fun _ => barL1

/-- Mutation of `barsA`: every signal value at index 2 and later changed (the mutated
bars have equal weekly returns). -/
def barsM : ℕ → Bar := fun j => if j < 2 then barL1 else barL1mut

/-- One long entry at index 2: no signal at bar 0, long signal at bar 1. -/
def barsE : ℕ → Bar := fun i => if i = 0 then barN else if i = 1 then barL1 else barN

/-- Window for the Asymmetry Index counterexample: five valid points with a
single below-mean point, whose pandas variance is NaN. -/
def aiWindow : List (Option ℚ) := [some 10, some 10, some 10, some 10, some 0]

/-- Ten exceedance indices spaced exactly 5 apart: ten singleton clusters,
hence exactly ten cluster maxima. -/
def idxs10 : List ℕ := [0, 5, 10, 15, 20, 25, 30, 35, 40, 45]

/-- A constant tail-alpha series for the GPD-gate counterexample. -/
def taZero : ℕ → ℚ := fun _ => 0

/-! ### Basic lemmas about the engine -/

lemma clampSize_one_le (a : ℚ) : 1 ≤ clampSize a := by
  unfold clampSize
  refine le_max_of_le_right (le_min (by norm_num) ?_)
  have := abs_nonneg (a - 1)
  linarith

lemma clampSize_le_two (a : ℚ) : clampSize a ≤ 2 := by
  unfold clampSize
  exact max_le (by norm_num) (min_le_left _ _)

lemma clampSize_pos (a : ℚ) : 0 < clampSize a :=
  lt_of_lt_of_le one_pos (clampSize_one_le a)

lemma stratState_succ (threshold : ℚ) (bars : ℕ → Bar) (t : ℕ) :
    stratState threshold bars (t + 1)
      = stratStep threshold (decide (1 ≤ t)) (bars t) (stratState threshold bars t) := rfl

lemma stratStep_hold_le (threshold : ℚ) (g : Bool) (b : Bar) (s : ℚ × ℕ) :
    (stratStep threshold g b s).2 ≤ 4 := by
  simp only [stratStep]
  split_ifs <;> simp <;> omega

lemma hold_counter_le_four (threshold : ℚ) (bars : ℕ → Bar) (t : ℕ) :
    hold_counter threshold bars t ≤ 4 := by
  cases t with
  | zero => simp [hold_counter, stratState]
  | succ t => exact stratStep_hold_le threshold _ _ _

lemma stratStep_forced (threshold : ℚ) (g : Bool) (b : Bar) (s : ℚ × ℕ)
    (h : 4 ≤ s.2) : stratStep threshold g b s = (0, 0) := by
  simp only [stratStep]
  rw [if_pos h]

lemma stratStep_fst (threshold : ℚ) (g : Bool) (b : Bar) (s : ℚ × ℕ) :
    (stratStep threshold g b s).1 =
      if 4 ≤ s.2 then 0
      else if (g && long_signal threshold b) = true ∧ (g && short_signal threshold b) = false then
        clampSize b.ai
      else if (g && short_signal threshold b) = true ∧ (g && long_signal threshold b) = false then
        -(clampSize b.ai)
      else if (g && long_signal threshold b) = true ∧ (g && short_signal threshold b) = true then 0
      else if 0 < s.1 ∧ long_signal threshold b = false then 0
      else if s.1 < 0 ∧ short_signal threshold b = false then 0
      else s.1 := by
  simp only [stratStep]
  split_ifs <;> rfl

lemma stratPos_shape (threshold : ℚ) (bars : ℕ → Bar) (t : ℕ) :
    stratPos threshold bars t = 0
      ∨ ∃ a : ℚ, stratPos threshold bars t = clampSize a
          ∨ stratPos threshold bars t = -(clampSize a) := by
  induction t with
  | zero => exact Or.inl rfl
  | succ t ih =>
    rw [stratPos, stratState_succ, stratStep_fst]
    split_ifs with h1 h2 h3 h4 h5 h6
    · exact Or.inl rfl
    · exact Or.inr ⟨(bars t).ai, Or.inl rfl⟩
    · exact Or.inr ⟨(bars t).ai, Or.inr rfl⟩
    · exact Or.inl rfl
    · exact Or.inl rfl
    · exact Or.inl rfl
    · exact ih

/-! ### Claims C2, C3, C4, C10: engine invariants -/

/-- C2: Forced-exit invariant: in every run and at every period `t`, if the
holding counter at `t` is at least 4, the position at `t + 1` is exactly 0
and the holding counter resets to 0, regardless of the signal values at `t`
(the statement quantifies over all bar sequences); consequently the holding
counter never exceeds 4 in any reachable state. -/
theorem c2_forced_exit (threshold : ℚ) (bars : ℕ → Bar) :
    (∀ t, 4 ≤ hold_counter threshold bars t →
        stratPos threshold bars (t + 1) = 0 ∧ hold_counter threshold bars (t + 1) = 0)
    ∧ (∀ t, hold_counter threshold bars t ≤ 4) := by
  constructor
  · intro t h
    have h2 : stratState threshold bars (t + 1) = (0, 0) := by
      rw [stratState_succ]
      exact stratStep_forced _ _ _ _ h
    exact ⟨congrArg Prod.fst h2, congrArg Prod.snd h2⟩
  · exact hold_counter_le_four threshold bars

/-- Witness for C2: on `barsH` the holding counter reaches 4 at period 5,
and the forced exit makes the position and counter 0 at period 6. -/
theorem c2_forced_exit_witness :
    4 ≤ hold_counter 0 barsH 5
      ∧ (stratPos 0 barsH 6 = 0 ∧ hold_counter 0 barsH 6 = 0) :=
  ⟨of_decide_eq_true (by with_unfolding_all rfl),
    (c2_forced_exit 0 barsH).1 5 (of_decide_eq_true (by with_unfolding_all rfl))⟩

/-- C3: Conflict invariant: whenever both the long-entry and the short-entry
signal at the previous period are true and no forced holding-period exit
applies, the position at the current period is exactly 0. -/
theorem c3_conflict_flat (threshold : ℚ) (bars : ℕ → Bar) (t : ℕ)
    (hl : long_signal threshold (bars t) = true)
    (hs : short_signal threshold (bars t) = true)
    (hh : hold_counter threshold bars t < 4) :
    stratPos threshold bars (t + 1) = 0 := by
  have hh2 : ¬ 4 ≤ (stratState threshold bars t).2 := Nat.not_le.mpr hh
  rw [stratPos, stratState_succ, stratStep_fst]
  rw [if_neg hh2]
  rcases Nat.eq_zero_or_pos t with h0 | h1
  · subst h0
    simp [stratState]
  · have hg : decide (1 ≤ t) = true := by simpa using h1
    simp [hg, hl, hs]

/-- Witness for C3: on `barsB` both signals fire at period 1, the holding
counter there is below 4, and the position at period 2 is 0. -/
theorem c3_conflict_flat_witness :
    long_signal 0 (barsB 1) = true ∧ short_signal 0 (barsB 1) = true
      ∧ hold_counter 0 barsB 1 < 4 ∧ stratPos 0 barsB 2 = 0 :=
  ⟨by with_unfolding_all rfl, by with_unfolding_all rfl,
    of_decide_eq_true (by with_unfolding_all rfl),
    c3_conflict_flat 0 barsB 1 (by with_unfolding_all rfl) (by with_unfolding_all rfl)
      (of_decide_eq_true (by with_unfolding_all rfl))⟩

/-- C4: Position-sizing invariant: on every entry into a non-flat position
the size equals `max(0.5, min(2.0, 1 + |AI at t-1 - 1|))`, and in every
reachable state the position magnitude is either exactly 0 or lies in the
closed interval `[0.5, 2.0]`. -/
theorem c4_sizing_invariant (threshold : ℚ) (bars : ℕ → Bar) :
    (∀ t, stratPos threshold bars t = 0
        ∨ (1/2 ≤ |stratPos threshold bars t| ∧ |stratPos threshold bars t| ≤ 2))
    ∧ (∀ t, stratPos threshold bars t = 0 → stratPos threshold bars (t + 1) ≠ 0 →
        |stratPos threshold bars (t + 1)| = max (1/2) (min 2 (1 + |(bars t).ai - 1|))) := by
  constructor
  · intro t
    rcases stratPos_shape threshold bars t with h | ⟨a, h | h⟩
    · exact Or.inl h
    · refine Or.inr ?_
      rw [h, abs_of_pos (clampSize_pos a)]
      exact ⟨le_trans (by norm_num) (clampSize_one_le a), clampSize_le_two a⟩
    · refine Or.inr ?_
      rw [h, abs_neg, abs_of_pos (clampSize_pos a)]
      exact ⟨le_trans (by norm_num) (clampSize_one_le a), clampSize_le_two a⟩
  · intro t h0 hne
    rw [stratPos, stratState_succ, stratStep_fst] at hne ⊢
    split_ifs at hne ⊢ with h1 h2 h3 h4 h5 h6
    · exact absurd rfl hne
    · rw [abs_of_pos (clampSize_pos _)]
      rfl
    · rw [abs_neg, abs_of_pos (clampSize_pos _)]
      rfl
    · exact absurd rfl hne
    · exact absurd rfl hne
    · exact absurd rfl hne
    · exact absurd h0 hne

/-- Witness for C4: on `barsE` the run is flat at period 1 and enters long at
period 2, with entry size `max(0.5, min(2.0, 1 + |AI - 1|))` at the bar-1 AI. -/
theorem c4_sizing_invariant_witness :
    stratPos 0 barsE 1 = 0 ∧ stratPos 0 barsE 2 ≠ 0
      ∧ |stratPos 0 barsE 2| = max (1/2) (min 2 (1 + |(barsE 1).ai - 1|)) :=
  ⟨by with_unfolding_all rfl, of_decide_eq_true (by with_unfolding_all rfl),
    (c4_sizing_invariant 0 barsE).2 1 (by with_unfolding_all rfl)
      (of_decide_eq_true (by with_unfolding_all rfl))⟩

/-- C10: implicit tighter sizing bound: the sizing value
`max(0.5, min(2.0, 1 + |AI - 1|))` is at least 1 for every AI value, so the
0.5 lower clamp is unreachable, and in every reachable state a non-zero
position magnitude lies in `[1.0, 2.0]`. -/
theorem c10_effective_min_size (threshold : ℚ) (bars : ℕ → Bar) :
    (∀ a : ℚ, 1 ≤ max (1/2) (min 2 (1 + |a - 1|)))
    ∧ (∀ t, stratPos threshold bars t = 0
        ∨ (1 ≤ |stratPos threshold bars t| ∧ |stratPos threshold bars t| ≤ 2)) := by
  constructor
  · exact clampSize_one_le
  · intro t
    rcases stratPos_shape threshold bars t with h | ⟨a, h | h⟩
    · exact Or.inl h
    · refine Or.inr ?_
      rw [h, abs_of_pos (clampSize_pos a)]
      exact ⟨clampSize_one_le a, clampSize_le_two a⟩
    · refine Or.inr ?_
      rw [h, abs_neg, abs_of_pos (clampSize_pos a)]
      exact ⟨clampSize_one_le a, clampSize_le_two a⟩

/-! ### Claim C1: no-look-ahead (lag) invariance -/

lemma stratState_congr (threshold : ℚ) (bars1 bars2 : ℕ → Bar) :
    ∀ t, (∀ j, j < t → bars1 j = bars2 j) →
      stratState threshold bars1 t = stratState threshold bars2 t := by
  intro t
  induction t with
  | zero => intro _; rfl
  | succ t ih =>
    intro h
    rw [stratState_succ, stratState_succ, ih (fun j hj => h j (Nat.lt_succ_of_lt hj)),
      h t (Nat.lt_succ_self t)]

/-- C1: No-look-ahead invariant: for every pair of bar sequences that agree
strictly before period `t` (any mutation of the signal values at period `t`
or later, which in particular leaves the weekly return at `t` unchanged),
the position computed at `t` and the realized return at `t` are unchanged;
equivalently, the position at `t` is a function only of state and signal
values strictly before `t`. -/
theorem c1_lag_invariant (threshold : ℚ) (bars1 bars2 : ℕ → Bar) (t : ℕ)
    (hpre : ∀ j, j < t → bars1 j = bars2 j)
    (hret : (bars1 t).weeklyReturn = (bars2 t).weeklyReturn) :
    stratPos threshold bars1 t = stratPos threshold bars2 t
      ∧ stratReturn threshold bars1 t = stratReturn threshold bars2 t := by
  have hpos : ∀ s, s ≤ t → stratPos threshold bars1 s = stratPos threshold bars2 s :=
    fun s hs => congrArg Prod.fst
      (stratState_congr threshold bars1 bars2 s (fun j hj => hpre j (lt_of_lt_of_le hj hs)))
  refine ⟨hpos t le_rfl, ?_⟩
  cases t with
  | zero => rfl
  | succ t =>
    show stratPos threshold bars1 t * (bars1 (t + 1)).weeklyReturn
        = stratPos threshold bars2 t * (bars2 (t + 1)).weeklyReturn
    rw [hret, hpos t (Nat.le_succ t)]

/-- Witness for C1: `barsM` mutates every signal value of `barsA` from
period 2 on (keeping weekly returns equal); position and realized return at
period 2 coincide on the two runs. -/
theorem c1_lag_invariant_witness :
    (∀ j, j < 2 → barsA j = barsM j)
      ∧ (barsA 2).weeklyReturn = (barsM 2).weeklyReturn
      ∧ (stratPos 0 barsA 2 = stratPos 0 barsM 2
          ∧ stratReturn 0 barsA 2 = stratReturn 0 barsM 2) :=
  ⟨of_decide_eq_true (by with_unfolding_all rfl), by with_unfolding_all rfl,
    c1_lag_invariant 0 barsA barsM 2 (of_decide_eq_true (by with_unfolding_all rfl))
      (by with_unfolding_all rfl)⟩

/-! ### Claim C6: trade-count statistic (corrected) -/

lemma countAbsDiffPosAux_eq_countValueChangesAux (l : List ℚ) :
    ∀ prev, countAbsDiffPosAux prev l = countValueChangesAux prev l := by
  induction l with
  | nil => intro prev; rfl
  | cons y ys ih =>
    intro prev
    have hcond : (0 < |y - prev|) ↔ (y ≠ prev) := by
      rw [abs_pos, sub_ne_zero]
    simp only [countAbsDiffPosAux, countValueChangesAux, ih y, hcond]

lemma countAbsDiffPos_eq_countValueChanges (l : List ℚ) :
    countAbsDiffPos l = countValueChanges l := by
  cases l with
  | nil => rfl
  | cons x xs => exact countAbsDiffPosAux_eq_countValueChangesAux xs x

/-- Counterexample to C6 as stated: on the run over `barsT` (two long trades,
each with a mid-trade size change and no sign change), the reported trade
count is 3 while the number of sign changes in the position series, halved,
is 2. -/
theorem c6_counterexample :
    n_trades (posList 0 barsT 8) = 3 ∧ spec_n_trades (posList 0 barsT 8) = 2
      ∧ n_trades (posList 0 barsT 8) ≠ spec_n_trades (posList 0 barsT 8) :=
  ⟨by with_unfolding_all rfl, by with_unfolding_all rfl,
    of_decide_eq_true (by with_unfolding_all rfl)⟩

/-- C6 (amended): for every backtest run, the reported trade count equals
the number of periods at which the position value changes from the previous
period (counting size-only changes of unchanged sign as well), halved with
integer floor division. -/
theorem c6_trade_count_amended (threshold : ℚ) (bars : ℕ → Bar) (n : ℕ) :
    n_trades (posList threshold bars n)
      = countValueChanges (posList threshold bars n) / 2 := by
  rw [n_trades, countAbsDiffPos_eq_countValueChanges]

/-! ### Claim C9: GPD minimum-sample gate (corrected) -/

/-- Counterexample to C9 as stated: ten exceedance indices spaced exactly 5
apart give exactly ten cluster maxima, yet the GPD fit is not attempted (the
source requires strictly more than 10). -/
theorem c9_counterexample :
    ¬ (gpd_fit_attempted taZero idxs10 = true
        ↔ 10 ≤ (cluster_maxima taZero idxs10).length) :=
  of_decide_eq_true (by with_unfolding_all rfl)

/-- C9 (amended): the GPD fit is performed if and only if there are strictly
more than 10 (that is, at least 11) cluster maxima; with 10 or fewer it is
skipped and reported as insufficient data. -/
theorem c9_gpd_gate_amended (ta : ℕ → ℚ) (e : List ℕ) :
    gpd_fit_attempted ta e = true ↔ 11 ≤ (cluster_maxima ta e).length := by
  simp only [gpd_fit_attempted, decide_eq_true_eq]
  omega

/-! ### Claim C8: declustering correctness -/

lemma cluster_labels_aux_length (l : List ℕ) :
    ∀ prev cur, (cluster_labels_aux prev cur l).length = l.length := by
  induction l with
  | nil => intro prev cur; rfl
  | cons e rest ih =>
    intro prev cur
    simp only [cluster_labels_aux, List.length_cons, ih]

lemma cluster_labels_length (e : List ℕ) : (cluster_labels e).length = e.length := by
  cases e with
  | nil => rfl
  | cons e0 rest =>
    simp only [cluster_labels, List.length_cons, cluster_labels_aux_length]

lemma cluster_labels_aux_adj (rest : List ℕ) :
    ∀ (prev cur i : ℕ), i + 1 < rest.length →
      (cluster_labels_aux prev cur rest).getD (i + 1) 0 =
        (cluster_labels_aux prev cur rest).getD i 0 +
          (if (5 : ℤ) ≤ (rest.getD (i + 1) 0 : ℤ) - (rest.getD i 0 : ℤ) then 1 else 0) := by
  induction rest with
  | nil => intro prev cur i h; simp at h
  | cons e rest2 ih =>
    intro prev cur i h
    cases i with
    | zero =>
      cases rest2 with
      | nil => simp at h
      | cons e2 rest3 =>
        simp only [cluster_labels_aux, List.getD_cons_succ, List.getD_cons_zero]
        split_ifs <;> omega
    | succ j =>
      simp only [cluster_labels_aux, List.getD_cons_succ]
      exact ih e _ j (by simp only [List.length_cons] at h; omega)

lemma cluster_labels_adj (e : List ℕ) (i : ℕ) (h : i + 1 < e.length) :
    (cluster_labels e).getD (i + 1) 0 =
      (cluster_labels e).getD i 0 +
        (if (5 : ℤ) ≤ (e.getD (i + 1) 0 : ℤ) - (e.getD i 0 : ℤ) then 1 else 0) := by
  cases e with
  | nil => simp at h
  | cons e0 rest =>
    cases i with
    | zero =>
      cases rest with
      | nil => simp at h
      | cons e1 rest2 =>
        simp only [cluster_labels, cluster_labels_aux, List.getD_cons_succ,
          List.getD_cons_zero]
        split_ifs <;> omega
    | succ j =>
      simp only [cluster_labels, List.getD_cons_succ]
      exact cluster_labels_aux_adj rest e0 0 j (by simp only [List.length_cons] at h; omega)

lemma cluster_labels_aux_getLastD_mem (l : List ℕ) :
    ∀ (prev cur c : ℕ), cur < c →
      c ≤ (cluster_labels_aux prev cur l).getLastD cur →
      c ∈ cluster_labels_aux prev cur l := by
  induction l with
  | nil =>
    intro prev cur c h1 h2
    simp only [cluster_labels_aux, List.getLastD_nil] at h2
    omega
  | cons e rest ih =>
    intro prev cur c h1 h2
    simp only [cluster_labels_aux, List.getLastD_cons] at h2
    simp only [cluster_labels_aux]
    by_cases hgap : (5 : ℤ) ≤ (e : ℤ) - (prev : ℤ)
    · rw [if_pos hgap] at h2 ⊢
      by_cases hc : c = cur + 1
      · rw [hc]
        exact List.mem_cons_self _ _
      · exact List.mem_cons_of_mem _ (ih e (cur + 1) c (by omega) h2)
    · rw [if_neg hgap] at h2 ⊢
      by_cases hc : c = cur
      · omega
      · exact List.mem_cons_of_mem _ (ih e cur c (by omega) h2)

lemma mem_cluster_labels_of_lt (e : List ℕ) (c : ℕ) (h : c < n_clusters e) :
    c ∈ cluster_labels e := by
  cases e with
  | nil => simp [n_clusters] at h
  | cons e0 rest =>
    simp only [n_clusters, List.isEmpty_cons, Bool.false_eq_true, if_false] at h
    rcases Nat.eq_zero_or_pos c with hc0 | hcpos
    · rw [hc0, cluster_labels]
      exact List.mem_cons_self _ _
    · rw [cluster_labels]
      refine List.mem_cons_of_mem _ ?_
      refine cluster_labels_aux_getLastD_mem rest e0 0 c hcpos ?_
      have hrw : (cluster_labels (e0 :: rest)).getLastD 0
          = (cluster_labels_aux e0 0 rest).getLastD 0 := by
        rw [cluster_labels, List.getLastD_cons]
      rw [← hrw]
      omega

lemma exists_mem_cluster_members (e : List ℕ) (c : ℕ) (h : c < n_clusters e) :
    ∃ v, v ∈ cluster_members e c := by
  have hmem := mem_cluster_labels_of_lt e c h
  have hlen : (cluster_labels e).length = e.length := cluster_labels_length e
  rw [List.mem_iff_getElem] at hmem
  obtain ⟨k, hk, hget⟩ := hmem
  have hk2 : k < e.length := hlen ▸ hk
  have hkz : k < ((cluster_labels e).zip e).length := by
    rw [List.length_zip, hlen]
    omega
  refine ⟨e[k], ?_⟩
  rw [cluster_members, List.mem_filterMap]
  refine ⟨((cluster_labels e)[k], e[k]), ?_, by simp [hget]⟩
  have hz : ((cluster_labels e).zip e)[k] = ((cluster_labels e)[k], e[k]) :=
    List.getElem_zip
  rw [← hz]
  exact List.getElem_mem hkz

lemma le_foldl_max (l : List ℚ) : ∀ a : ℚ, a ≤ l.foldl max a := by
  induction l with
  | nil => intro a; exact le_refl a
  | cons x xs ih => intro a; exact le_trans (le_max_left a x) (ih (max a x))

lemma mem_le_foldl_max (l : List ℚ) : ∀ (a x : ℚ), x ∈ l → x ≤ l.foldl max a := by
  induction l with
  | nil => intro a x hx; simp at hx
  | cons y ys ih =>
    intro a x hx
    rcases List.mem_cons.mp hx with h | h
    · rw [h, List.foldl_cons]
      exact le_trans (le_max_right a y) (le_foldl_max ys (max a y))
    · exact ih (max a y) x h

lemma foldl_max_mem (l : List ℚ) : ∀ a : ℚ, l.foldl max a = a ∨ l.foldl max a ∈ l := by
  induction l with
  | nil => intro a; exact Or.inl rfl
  | cons x xs ih =>
    intro a
    rcases ih (max a x) with h | h
    · rcases max_choice a x with hm | hm
      · exact Or.inl (by rw [List.foldl_cons, h, hm])
      · refine Or.inr ?_
        rw [List.foldl_cons, h, hm]
        exact List.mem_cons_self _ _
    · exact Or.inr (List.mem_cons_of_mem _ h)

lemma listMax_mem (l : List ℚ) (h : l ≠ []) : listMax l ∈ l := by
  cases l with
  | nil => exact absurd rfl h
  | cons x xs =>
    rcases foldl_max_mem xs x with h2 | h2
    · rw [listMax, h2]
      exact List.mem_cons_self _ _
    · exact List.mem_cons_of_mem _ h2

lemma le_listMax (l : List ℚ) (x : ℚ) (h : x ∈ l) : x ≤ listMax l := by
  cases l with
  | nil => simp at h
  | cons y ys =>
    rcases List.mem_cons.mp h with h2 | h2
    · rw [h2, listMax]
      exact le_foldl_max ys y
    · exact mem_le_foldl_max ys y x h2

/-- C8: Declustering correctness: for every exceedance-index sequence, each
later exceedance starts a new cluster exactly when the index gap to the
previous exceedance is at least 5 (otherwise it keeps the current label);
for every cluster, its representative value is attained at a member and
bounds every member's tail-alpha from above; and the concrete sequence
`[10, 11, 20, 21, 22, 40]` yields exactly the 3 clusters `{10, 11}`,
`{20, 21, 22}` and `{40}`. -/
theorem c8_declustering :
    (∀ (e : List ℕ) (i : ℕ), i + 1 < e.length →
        (cluster_labels e).getD (i + 1) 0 =
          (cluster_labels e).getD i 0 +
            (if (5 : ℤ) ≤ (e.getD (i + 1) 0 : ℤ) - (e.getD i 0 : ℤ) then 1 else 0))
    ∧ (∀ (ta : ℕ → ℚ) (e : List ℕ) (c : ℕ), c < n_clusters e →
        cluster_max ta e c ∈ (cluster_members e c).map ta
          ∧ ∀ v ∈ (cluster_members e c).map ta, v ≤ cluster_max ta e c)
    ∧ (n_clusters [10, 11, 20, 21, 22, 40] = 3
        ∧ cluster_members [10, 11, 20, 21, 22, 40] 0 = [10, 11]
        ∧ cluster_members [10, 11, 20, 21, 22, 40] 1 = [20, 21, 22]
        ∧ cluster_members [10, 11, 20, 21, 22, 40] 2 = [40]) := by
  refine ⟨cluster_labels_adj, ?_, by decide⟩
  intro ta e c h
  obtain ⟨v, hv⟩ := exists_mem_cluster_members e c h
  have hne : (cluster_members e c).map ta ≠ [] := by
    intro h0
    rw [List.map_eq_nil_iff] at h0
    rw [h0] at hv
    exact absurd hv (List.not_mem_nil v)
  exact ⟨listMax_mem _ hne, fun w hw => le_listMax _ w hw⟩

/-- Witness for C8: the gap rule instantiated at the first pair of the
concrete sequence, and the cluster-maximum property at its third cluster. -/
theorem c8_declustering_witness :
    (0 + 1 < ([10, 11, 20, 21, 22, 40] : List ℕ).length
      ∧ (cluster_labels [10, 11, 20, 21, 22, 40]).getD 1 0 =
          (cluster_labels [10, 11, 20, 21, 22, 40]).getD 0 0 +
            (if (5 : ℤ) ≤ (([10, 11, 20, 21, 22, 40] : List ℕ).getD 1 0 : ℤ)
                - (([10, 11, 20, 21, 22, 40] : List ℕ).getD 0 0 : ℤ) then 1 else 0))
    ∧ (2 < n_clusters [10, 11, 20, 21, 22, 40]
      ∧ cluster_max taZero [10, 11, 20, 21, 22, 40] 2
          ∈ (cluster_members [10, 11, 20, 21, 22, 40] 2).map taZero) :=
  ⟨⟨by decide, c8_declustering.1 [10, 11, 20, 21, 22, 40] 0 (by decide)⟩,
    ⟨by decide, (c8_declustering.2.1 taZero [10, 11, 20, 21, 22, 40] 2 (by decide)).1⟩⟩

/-! ### Claim C7: the Asymmetry Index (corrected) -/

lemma list_sum_le_length_mul (m : ℚ) :
    ∀ l : List ℚ, (∀ v ∈ l, v ≤ m) → l.sum ≤ l.length * m := by
  intro l
  induction l with
  | nil => intro _; simp
  | cons a l2 ih =>
    intro h
    have ha := h a (List.mem_cons_self _ _)
    have h2 := ih (fun v hv => h v (List.mem_cons_of_mem _ hv))
    simp only [List.sum_cons, List.length_cons]
    push_cast
    have hexp : ((l2.length : ℚ) + 1) * m = (l2.length : ℚ) * m + m := by ring
    linarith

lemma list_sum_lt_length_mul (m : ℚ) :
    ∀ l : List ℚ, (∀ v ∈ l, v ≤ m) → (∃ v ∈ l, v < m) → l.sum < l.length * m := by
  intro l
  induction l with
  | nil =>
    intro _ hlt
    obtain ⟨v, hv, _⟩ := hlt
    simp at hv
  | cons a l2 ih =>
    intro hle hlt
    have ha := hle a (List.mem_cons_self _ _)
    have h2le : ∀ v ∈ l2, v ≤ m := fun v hv => hle v (List.mem_cons_of_mem _ hv)
    simp only [List.sum_cons, List.length_cons]
    push_cast
    have hexp : ((l2.length : ℚ) + 1) * m = (l2.length : ℚ) * m + m := by ring
    obtain ⟨v, hv, hvm⟩ := hlt
    rcases List.mem_cons.mp hv with heq | hv2
    · have h2 := list_sum_le_length_mul m l2 h2le
      rw [heq] at hvm
      linarith
    · have h2 := ih h2le ⟨v, hv2, hvm⟩
      linarith

lemma exists_gt_mean (x : List ℚ) (hne : x ≠ []) (v : ℚ) (hv : v ∈ x)
    (hlt : v < listMean x) : ∃ u ∈ x, listMean x < u := by
  by_contra hcon
  push_neg at hcon
  have hsum := list_sum_lt_length_mul (listMean x) x hcon ⟨v, hv, hlt⟩
  have hn : (x.length : ℚ) ≠ 0 := by
    have : x.length ≠ 0 := fun h0 => hne (List.length_eq_zero.mp h0)
    exact_mod_cast this
  have heq : (x.length : ℚ) * listMean x = x.sum := by
    rw [listMean]
    field_simp
  rw [heq] at hsum
  exact lt_irrefl _ hsum

/-- Counterexample to C7 as stated: the window `[10, 10, 10, 10, 0]` has five
valid points and a single below-mean point, whose pandas variance is NaN; the
source propagates the NaN (result `none`) instead of the spec's 1.0. -/
theorem c7_counterexample :
    compute_ai aiWindow = none ∧ spec_ai aiWindow = some 1 :=
  ⟨by with_unfolding_all rfl, by with_unfolding_all rfl⟩

/-- C7 (amended): for every window, `compute_ai` returns 1.0 when there are
fewer than 5 valid points, no below-mean points, or a below-mean deviation
variance that is defined and zero; it is undefined (NaN) when the below-mean
variance is undefined with a below-mean point present or when the above-mean
variance is undefined; otherwise it returns the ratio of the above-mean
deviation variance to the below-mean deviation variance. -/
theorem c7_ai_amended (w : List (Option ℚ)) : compute_ai w = amended_ai w := by
  simp only [compute_ai, amended_ai]
  by_cases h5 : (w.filterMap id).length < 5
  · rw [if_pos h5, if_pos h5]
  · rw [if_neg h5, if_neg h5]
    by_cases hn0 :
        ((w.filterMap id).filter
            (fun v => decide (v < listMean (w.filterMap id)))).map
          (fun v => v - listMean (w.filterMap id)) = []
    · rw [if_pos (Or.inl (by rw [hn0]; rfl)), if_pos (by rw [hn0]; rfl)]
    · have hn0' :
          ¬ (((w.filterMap id).filter
                (fun v => decide (v < listMean (w.filterMap id)))).map
              (fun v => v - listMean (w.filterMap id))).length = 0 := by
        intro h0
        exact hn0 (List.length_eq_zero.mp h0)
      rw [if_neg hn0']
      by_cases hv0 :
          svar (((w.filterMap id).filter
                (fun v => decide (v < listMean (w.filterMap id)))).map
              (fun v => v - listMean (w.filterMap id))) = some 0
      · rw [if_pos (Or.inr hv0), hv0]
        simp
      · rw [if_neg (not_or.mpr ⟨hn0', hv0⟩)]
        have hxne : w.filterMap id ≠ [] := by
          intro h0
          rw [h0] at h5
          simp at h5
        have hexlt : ∃ v ∈ w.filterMap id, v < listMean (w.filterMap id) := by
          have hfne : (w.filterMap id).filter
              (fun v => decide (v < listMean (w.filterMap id))) ≠ [] := by
            intro h0
            rw [h0] at hn0
            exact hn0 rfl
          obtain ⟨v, hv⟩ := List.exists_mem_of_ne_nil _ hfne
          obtain ⟨hvx, hvd⟩ := List.mem_filter.mp hv
          exact ⟨v, hvx, of_decide_eq_true hvd⟩
        obtain ⟨v, hvx, hvm⟩ := hexlt
        obtain ⟨u, hux, hum⟩ := exists_gt_mean _ hxne v hvx hvm
        have hp0 : 0 < (((w.filterMap id).filter
              (fun v => decide (listMean (w.filterMap id) < v))).map
            (fun v => v - listMean (w.filterMap id))).length := by
          rw [List.length_map]
          refine List.length_pos.mpr ?_
          exact List.ne_nil_of_mem (List.mem_filter.mpr ⟨hux, by simpa using hum⟩)
        rw [if_pos hp0]
        cases hsn :
            svar (((w.filterMap id).filter
                  (fun v => decide (v < listMean (w.filterMap id)))).map
                (fun v => v - listMean (w.filterMap id))) with
        | none =>
          cases hsp :
              svar (((w.filterMap id).filter
                    (fun v => decide (listMean (w.filterMap id) < v))).map
                  (fun v => v - listMean (w.filterMap id))) <;> rfl
        | some vn =>
          have hvn : ¬ vn = 0 := fun h0 => hv0 (by rw [hsn, h0])
          cases hsp :
              svar (((w.filterMap id).filter
                    (fun v => decide (listMean (w.filterMap id) < v))).map
                  (fun v => v - listMean (w.filterMap id))) <;> simp [hvn]

/-! ### Claim C5: zero-variance degeneracy of the summary statistics -/

lemma list_all_zero_of_sum_eq_zero :
    ∀ l : List ℚ, (∀ x ∈ l, 0 ≤ x) → l.sum = 0 → ∀ x ∈ l, x = 0 := by
  intro l
  induction l with
  | nil => intro _ _ x hx; simp at hx
  | cons a l2 ih =>
    intro hpos hsum x hx
    have ha : 0 ≤ a := hpos a (List.mem_cons_self _ _)
    have h2 : ∀ y ∈ l2, 0 ≤ y := fun y hy => hpos y (List.mem_cons_of_mem _ hy)
    have hs2 : 0 ≤ l2.sum := List.sum_nonneg h2
    rw [List.sum_cons] at hsum
    have ha0 : a = 0 := by linarith
    have hsum2 : l2.sum = 0 := by linarith
    rcases List.mem_cons.mp hx with rfl | hx2
    · exact ha0
    · exact ih h2 hsum2 x hx2

lemma svar_some_zero (rs : List ℚ) (h : svar rs = some 0) :
    2 ≤ rs.length ∧ ∀ x ∈ rs, x = listMean rs := by
  rw [svar] at h
  split_ifs at h with hlen
  · refine ⟨hlen, ?_⟩
    injection h with h0
    have hden : ((rs.length : ℚ) - 1) ≠ 0 := by
      have hc : (2 : ℚ) ≤ (rs.length : ℚ) := by exact_mod_cast hlen
      linarith
    have hnum : (rs.map (fun x => (x - listMean rs) ^ 2)).sum = 0 := by
      rcases div_eq_zero_iff.mp h0 with h1 | h1
      · exact h1
      · exact absurd h1 hden
    intro x hx
    have hsq : (x - listMean rs) ^ 2 = 0 := by
      refine list_all_zero_of_sum_eq_zero _ ?_ hnum _ (List.mem_map_of_mem _ hx)
      intro y hy
      obtain ⟨z, _, rfl⟩ := List.mem_map.mp hy
      exact sq_nonneg _
    exact sub_eq_zero.mp (sq_eq_zero_iff.mp hsq)

lemma stratReturnsList_length (threshold : ℚ) (bars : ℕ → Bar) (n : ℕ) :
    (stratReturnsList threshold bars n).length = n := by
  simp [stratReturnsList]

lemma zero_mem_stratReturnsList (threshold : ℚ) (bars : ℕ → Bar) (n : ℕ)
    (h : 1 ≤ n) : (0 : ℚ) ∈ stratReturnsList threshold bars n :=
  List.mem_map.mpr ⟨0, List.mem_range.mpr h, rfl⟩

lemma cumScan_all_zero (rs : List ℚ) :
    ∀ a : ℚ, (∀ x ∈ rs, x = 0) →
      cumScan (fun a r => a * (1 + r)) a rs = List.replicate rs.length a := by
  induction rs with
  | nil => intro a _; rfl
  | cons x xs ih =>
    intro a h
    have hx : x = 0 := h x (List.mem_cons_self _ _)
    simp only [cumScan, hx, add_zero, mul_one, List.length_cons, List.replicate_succ]
    rw [ih a (fun y hy => h y (List.mem_cons_of_mem _ hy))]

lemma cumScan_max_replicate (a : ℚ) :
    ∀ n : ℕ, cumScan (fun x r => max x r) a (List.replicate n a) = List.replicate n a := by
  intro n
  induction n with
  | zero => rfl
  | succ n ih =>
    simp only [List.replicate_succ, cumScan, max_self]
    rw [ih]

lemma runningMax_replicate (n : ℕ) (a : ℚ) :
    runningMax (List.replicate n a) = List.replicate n a := by
  cases n with
  | zero => rfl
  | succ n =>
    simp only [List.replicate_succ, runningMax]
    rw [cumScan_max_replicate]

lemma zipWith_dd_replicate :
    ∀ n : ℕ, List.zipWith (fun c m => c / m - 1)
      (List.replicate n (1 : ℚ)) (List.replicate n 1) = List.replicate n 0 := by
  intro n
  induction n with
  | zero => rfl
  | succ n ih =>
    simp only [List.replicate_succ, List.zipWith_cons_cons, ih]
    norm_num

lemma foldl_min_replicate (a : ℚ) :
    ∀ n : ℕ, (List.replicate n a).foldl min a = a := by
  intro n
  induction n with
  | zero => rfl
  | succ n ih =>
    simp only [List.replicate_succ, List.foldl_cons, min_self]
    exact ih

lemma listMin_replicate_zero (n : ℕ) : listMin (List.replicate n (0 : ℚ)) = 0 := by
  cases n with
  | zero => rfl
  | succ n =>
    simp only [List.replicate_succ, listMin]
    exact foldl_min_replicate 0 n

lemma max_drawdown_all_zero (rs : List ℚ) (h : ∀ x ∈ rs, x = 0) :
    max_drawdown rs = 0 := by
  rw [max_drawdown, cumprod1p, cumScan_all_zero rs 1 h, runningMax_replicate,
    zipWith_dd_replicate, listMin_replicate_zero]

/-- C5: Numerical-degeneracy fallback: for every backtest run whose
strategy-return series has zero variance, the annualized Sharpe ratio and
the annualized Sortino ratio are both exactly 0 and the maximum drawdown is
0 (the series then consists entirely of zeros, since the lagged first return
is always 0). -/
theorem c5_zero_variance_metrics (threshold : ℚ) (bars : ℕ → Bar) (n : ℕ)
    (hvar : svar (stratReturnsList threshold bars n) = some 0) :
    sharpe (stratReturnsList threshold bars n) = 0
      ∧ sortino (stratReturnsList threshold bars n) = 0
      ∧ max_drawdown (stratReturnsList threshold bars n) = 0 := by
  obtain ⟨hlen, hmean⟩ := svar_some_zero _ hvar
  have h0mem : (0 : ℚ) ∈ stratReturnsList threshold bars n := by
    refine zero_mem_stratReturnsList threshold bars n ?_
    have := stratReturnsList_length threshold bars n
    omega
  have hm0 : listMean (stratReturnsList threshold bars n) = 0 := (hmean 0 h0mem).symm
  have hall : ∀ x ∈ stratReturnsList threshold bars n, x = 0 := fun x hx => by
    rw [hmean x hx, hm0]
  refine ⟨?_, ?_, max_drawdown_all_zero _ hall⟩
  · simp [sharpe, hvar]
  · have hfilter : (stratReturnsList threshold bars n).filter (fun r => decide (r < 0)) = [] := by
      rw [List.filter_eq_nil_iff]
      intro x hx
      rw [hall x hx]
      simp
    simp [sortino, hfilter, hm0]

/-- Witness for C5: the zero-volatility run over `barsZ` (all weekly returns
0) has a zero-variance strategy-return series; Sharpe, Sortino and maximum
drawdown are all 0. -/
theorem c5_zero_variance_metrics_witness :
    svar (stratReturnsList 0 barsZ 3) = some 0
      ∧ (sharpe (stratReturnsList 0 barsZ 3) = 0
          ∧ sortino (stratReturnsList 0 barsZ 3) = 0
          ∧ max_drawdown (stratReturnsList 0 barsZ 3) = 0) :=
  ⟨by with_unfolding_all rfl,
    c5_zero_variance_metrics 0 barsZ 3 (by with_unfolding_all rfl)⟩
